import Mathlib

/-!
# DoH proxy: a shallow embedding of `doh-proxy.go`

The program is a UDP relay loop (`main`) that hands every received datagram to a
goroutine, and a forwarder (`sendToDoH`) that performs one HTTPS GET exchange.

* Bytes are `Fin 256`, Go byte slices are lists, a nil slice is `[]`.
* A Go result pair `([]byte, error)` is `Bytes × Option Error` (`none` is a nil error),
  so that a result carrying both bytes and an error can be represented.
* The platform (UDP socket, HTTP client, URL parser) is the environment: the values it
  hands to the program are inputs of the model, the calls the program makes on it are
  recorded in logs (`wire` for HTTPS requests, `sent` for `WriteToUDP` calls).
* Goroutines are modelled by a step function on a system state; a schedule is a list of
  events, and every interleaving of the loop and the tasks is such a list. The steps are
  cut at the points where the code blocks: the loop at `ReadFromUDP`, a goroutine at the
  HTTPS exchange. The only variable two goroutines could share is `buf`, which the loop
  alone reads and writes: the arguments of the `go` statement, the copy of `buf[:n]`
  among them, are evaluated by the loop before the goroutine starts, and `n` is declared
  anew in each iteration.
-/

namespace DoH

/-! ## Bytes, errors, slices -/

abbrev Byte := Fin 256

abbrev Bytes := List Byte

/-- Go `error` value that is not nil. -/
structure Error where
  msg : String
deriving DecidableEq, Repr

/-- Go conversion `byte(x)` of an unsigned integer: keeps the low 8 bits. -/
def toByte (x : Nat) : Byte := ⟨x % 256, Nat.mod_lt x (by decide)⟩

/-- Go slice expression `s[:n]`; `none` is the run-time panic "slice bounds out of range".
The bound used is `len(s)` (Go allows up to `cap(s)`, which is at least `len(s)`), so a
`some` result here is a slice that holds only bytes of `s`. -/
def sliceTo (s : Bytes) (n : Nat) : Option Bytes :=
  if n ≤ s.length then some (s.take n) else none

/-! ## `encoding/base64`: `RawURLEncoding` -/

/-- Go `const encodeURL`, the alphabet of `base64.URLEncoding`. -/
def encodeURL : List Char :=
  "ABCDEFGHIJKLMNOPQRSTUVWXYZabcdefghijklmnopqrstuvwxyz0123456789-_".toList

/-- Table lookup `enc.encode[i]`; every index used is masked with `0x3F`. -/
def encTab (i : Nat) : Char := encodeURL.getD i 'A'

/-- Go `(*Encoding).Encode` for `RawURLEncoding` (padding `NoPadding`): full 3-byte groups
give 4 characters, a remainder of 2 bytes gives 3 characters, of 1 byte gives 2. -/
def Encode : Bytes → List Char
  | a :: b :: c :: rest =>
    let val := a.val <<< 16 ||| b.val <<< 8 ||| c.val
    encTab (val >>> 18 &&& 0x3F) :: encTab (val >>> 12 &&& 0x3F) ::
      encTab (val >>> 6 &&& 0x3F) :: encTab (val &&& 0x3F) :: Encode rest
  | [a, b] =>
    let val := a.val <<< 16 ||| b.val <<< 8
    [encTab (val >>> 18 &&& 0x3F), encTab (val >>> 12 &&& 0x3F), encTab (val >>> 6 &&& 0x3F)]
  | [a] =>
    let val := a.val <<< 16
    [encTab (val >>> 18 &&& 0x3F), encTab (val >>> 12 &&& 0x3F)]
  | [] => []

/-- Go `(*Encoding).EncodedLen` without padding. -/
def EncodedLen (n : Nat) : Nat := n / 3 * 4 + (n % 3 * 8 + 5) / 6

/-- Go `(*Encoding).EncodeToString`. -/
def EncodeToString (src : Bytes) : String := String.mk (Encode src)

/-- Go `enc.decodeMap`: the position of a character in the alphabet, `none` for the
invalid marker `0xFF`. -/
def decodeMap (c : Char) : Option Nat := encodeURL.indexOf? c

/-- First pass of the decoder: line breaks are skipped, every other character must be in
the alphabet (there is no padding character in `RawURLEncoding`). -/
def decodeSextets : List Char → Option (List Nat)
  | [] => some []
  | c :: cs =>
    if c = '\n' ∨ c = '\r' then decodeSextets cs
    else
      match decodeMap c with
      | none => none
      | some v =>
        match decodeSextets cs with
        | none => none
        | some vs => some (v :: vs)

/-- Second pass of the decoder: 4 sextets give 3 bytes, a final group of 3 gives 2 bytes,
of 2 gives 1 byte, and a final group of a single sextet is corrupt input. -/
def decodeQuanta : List Nat → Option Bytes
  | s0 :: s1 :: s2 :: s3 :: rest =>
    let val := s0 <<< 18 ||| s1 <<< 12 ||| s2 <<< 6 ||| s3
    match decodeQuanta rest with
    | none => none
    | some out => some (toByte (val >>> 16) :: toByte (val >>> 8) :: toByte val :: out)
  | [s0, s1, s2] =>
    let val := s0 <<< 18 ||| s1 <<< 12 ||| s2 <<< 6
    some [toByte (val >>> 16), toByte (val >>> 8)]
  | [s0, s1] =>
    let val := s0 <<< 18 ||| s1 <<< 12
    some [toByte (val >>> 16)]
  | [_] => none
  | [] => some []

/-- Standard unpadded base64url decoding (RFC 4648 section 5 without `=`), as done by Go
`base64.RawURLEncoding.DecodeString`; `none` is `CorruptInputError`. The program itself
never decodes: this is the decoder the round-trip property of the specification is
stated against. -/
def DecodeString (s : String) : Option Bytes :=
  match decodeSextets s.toList with
  | none => none
  | some vs => decodeQuanta vs

/-- Character class `[A-Za-z0-9_-]`. -/
def urlSafe (c : Char) : Bool :=
  ('A' ≤ c && c ≤ 'Z') || ('a' ≤ c && c ≤ 'z') || ('0' ≤ c && c ≤ '9') || c == '_' || c == '-'

/-! ## `net/http` and `io`: the upstream side -/

/-- Go `http.Header`, a fresh one is empty. -/
abbrev Header := List (String × String)

/-- Go `Header.Set`: replaces whatever values the key had. -/
def Header.Set (h : Header) (key value : String) : Header :=
  (key, value) :: h.filter (fun kv => kv.1 != key)

/-- Go `Header.Get`. -/
def Header.Get (h : Header) (key : String) : Option String :=
  (h.find? (fun kv => kv.1 == key)).map (fun kv => kv.2)

/-- Go `*http.Request`, restricted to what `sendToDoH` sets. -/
structure Request where
  method : String
  url : String
  header : Header
deriving DecidableEq, Repr

/-- Go `resp.Body` seen as an `io.Reader`: the chunks successive `Read` calls deliver,
then either `io.EOF` (`err = none`) or a read error. -/
structure Body where
  chunks : List Bytes
  err : Option Error

/-- Go `*http.Response`, restricted to status code and body. -/
structure Response where
  statusCode : Nat
  body : Body

/-- The upstream environment during one exchange: whether `url.Parse` inside
`http.NewRequest` rejects a URL, and what `http.Client.Do` answers to a request
(a transport error, or a response of any status code). -/
structure Net where
  parseURL : String → Option Error
  roundTrip : Request → Except Error Response

/-- Go `http.NewRequest(method, url, nil)`; the method `"GET"` is a valid method, so the
only failure is the URL parser. -/
def NewRequest (net : Net) (method url : String) : Except Error Request :=
  match net.parseURL url with
  | some err => Except.error err
  | none => Except.ok { method := method, url := url, header := [] }

/-- Go `client.Do(req)`: the request handed to the client is appended to the log of
requests issued, and the environment answers with a transport error or with the response
the client returns. -/
def ClientDo (net : Net) (wire : List Request) (req : Request) :
    List Request × Except Error Response :=
  (wire ++ [req], net.roundTrip req)

/-- Loop of Go `io.ReadAll`: appends what each `Read` delivers to `b`; at the end of the
stream returns `b` with a nil error, at a read error returns `b` and that error. -/
def ReadAll.loop : List Bytes → Option Error → Bytes → Bytes × Option Error
  | [], err, b => (b, err)
  | c :: cs, err, b => ReadAll.loop cs err (b ++ c)

/-- Go `io.ReadAll(r)`. -/
def ReadAll (r : Body) : Bytes × Option Error := ReadAll.loop r.chunks r.err []

/-! ## `doh-proxy.go` -/

def listenAddr : String := ":53530"

def dohEndpoint : String := "https://cloudflare-dns.com/dns-query"

/-- Lines 62 and 65 of `sendToDoH`: `fmt.Sprintf("%s?dns=%s", dohEndpoint, encoded)` with
`encoded := base64.RawURLEncoding.EncodeToString(dnsQuery)`. -/
def dohURL (dnsQuery : Bytes) : String :=
  let encoded := EncodeToString dnsQuery
  dohEndpoint ++ "?dns=" ++ encoded

/-- Function `sendToDoH`. It takes and returns the log of HTTPS requests issued; the second
component is the Go result `([]byte, error)`. -/
def sendToDoH (net : Net) (dnsQuery : Bytes) (wire : List Request) :
    List Request × (Bytes × Option Error) :=
  let url := dohURL dnsQuery
  match NewRequest net "GET" url with
  | Except.error err => (wire, ([], some err))
  | Except.ok req =>
    let req := { req with header := Header.Set req.header "Accept" "application/dns-message" }
    match ClientDo net wire req with
    | (wire, Except.error err) => (wire, ([], some err))
    | (wire, Except.ok resp) => (wire, ReadAll resp.body)

/-- Go `*net.UDPAddr`. -/
structure UDPAddr where
  ip : String
  port : Nat
deriving DecidableEq, Repr

/-- One call `conn.WriteToUDP(payload, addr)`. -/
structure Datagram where
  payload : Bytes
  addr : UDPAddr
deriving DecidableEq, Repr

/-- What the socket delivers to one `conn.ReadFromUDP(buf)`: an error, or a datagram with
its payload and its sender. -/
inductive Recv where
  | fail (err : Error)
  | dgram (payload : Bytes) (src : UDPAddr)

/-- Go `conn.ReadFromUDP(buf)` on a POSIX socket: a datagram fills the front of `buf` with
as much of its payload as fits and the rest of the payload is discarded; the result is the
new content of `buf` and `(n, addr)` or the error. -/
def ReadFromUDP (buf : Bytes) : Recv → Bytes × Except Error (Nat × UDPAddr)
  | Recv.fail err => (buf, Except.error err)
  | Recv.dgram payload src =>
    let n := min payload.length buf.length
    (payload.take n ++ buf.drop n, Except.ok (n, src))

/-- Go `conn.WriteToUDP(b, addr)`; the program discards both results of the call. -/
def WriteToUDP (sent : List Datagram) (b : Bytes) (addr : UDPAddr) : List Datagram :=
  sent ++ [{ payload := b, addr := addr }]

/-- Where a goroutine of `main` stands. -/
inductive Phase where
  | spawned
  | returned (resp : Bytes) (err : Option Error)
  | done

/-- One goroutine started at line 45: its parameters `query` and `clientAddr`, the
variable `n` of its loop iteration that the closure captures, and its phase. -/
structure Task where
  query : Bytes
  clientAddr : UDPAddr
  n : Nat
  phase : Phase

/-- State of the process: the receive buffer `buf` of `main`, the goroutines started so
far, the HTTPS requests and the `WriteToUDP` calls issued so far, and whether a run-time
panic has ended the process. -/
structure Sys where
  buf : Bytes
  tasks : List Task
  wire : List Request
  sent : List Datagram
  panicked : Bool

/-- Lines 38 to 55 seen from the loop: one iteration of `for`. A read error is logged and
the loop continues; otherwise the goroutine is started with
`append([]byte(nil), buf[:n]...)` and `addr`. -/
def loopIter (s : Sys) (r : Recv) : Sys :=
  match ReadFromUDP s.buf r with
  | (buf, Except.error _) => { s with buf := buf }
  | (buf, Except.ok (n, addr)) =>
    match sliceTo buf n with
    | none => { s with buf := buf, panicked := true }
    | some q =>
      { s with buf := buf,
               tasks := s.tasks ++ [{ query := [] ++ q, clientAddr := addr, n := n,
                                      phase := Phase.spawned }] }

/-- Line 47: `resp, err := sendToDoH(query[:n])`; `none` is a panic of the slice. -/
def goCall (net : Net) (query : Bytes) (n : Nat) (wire : List Request) :
    Option (List Request × (Bytes × Option Error)) :=
  match sliceTo query n with
  | none => none
  | some q => some (sendToDoH net q wire)

/-- Lines 48 to 54: on an error the goroutine logs and returns, otherwise it calls
`conn.WriteToUDP(resp, clientAddr)`. -/
def goFinish (resp : Bytes) (err : Option Error) (clientAddr : UDPAddr)
    (sent : List Datagram) : List Datagram :=
  match err with
  | some _ => sent
  | none => WriteToUDP sent resp clientAddr

/-- The whole body of the goroutine, lines 45 to 55, run from start to end: the requests
it issues and the datagrams it writes are appended to the two logs. -/
def goFunc (net : Net) (query : Bytes) (clientAddr : UDPAddr) (n : Nat)
    (wire : List Request) (sent : List Datagram) : Option (List Request × List Datagram) :=
  match goCall net query n wire with
  | none => none
  | some (wire, (resp, err)) => some (wire, goFinish resp err clientAddr sent)

/-- What the scheduler can do next: let the loop finish an iteration, let goroutine `i`
run until `sendToDoH` has returned (under the upstream behaviour `net` of that moment),
or let goroutine `i` run from there to its end. -/
inductive Event where
  | recv (r : Recv)
  | forward (i : Nat) (net : Net)
  | reply (i : Nat)

/-- Goroutine `i` runs line 47. -/
def taskForward (s : Sys) (i : Nat) (net : Net) : Sys :=
  match s.tasks[i]? with
  | none => s
  | some t =>
    match t.phase with
    | Phase.spawned =>
      match goCall net t.query t.n s.wire with
      | none => { s with panicked := true }
      | some (wire, (resp, err)) =>
        { s with wire := wire, tasks := s.tasks.set i { t with phase := Phase.returned resp err } }
    | _ => s

/-- Goroutine `i` runs lines 48 to 55. -/
def taskReply (s : Sys) (i : Nat) : Sys :=
  match s.tasks[i]? with
  | none => s
  | some t =>
    match t.phase with
    | Phase.returned resp err =>
      { s with sent := goFinish resp err t.clientAddr s.sent,
               tasks := s.tasks.set i { t with phase := Phase.done } }
    | _ => s

/-- One scheduling step; after a panic the process is gone and nothing happens. -/
def step (s : Sys) (e : Event) : Sys :=
  if s.panicked then s
  else
    match e with
    | Event.recv r => loopIter s r
    | Event.forward i net => taskForward s i net
    | Event.reply i => taskReply s i

/-- The process under a schedule. -/
def run (s : Sys) (evs : List Event) : Sys := evs.foldl step s

/-- State at line 36: `buf := make([]byte, 512)`, nothing started, nothing sent. -/
def init : Sys :=
  { buf := List.replicate 512 0, tasks := [], wire := [], sent := [], panicked := false }

/-- The datagrams a schedule delivers to the loop, in order. -/
def recvs : List Event → List (Bytes × UDPAddr)
  | [] => []
  | Event.recv (Recv.dgram p a) :: evs => (p, a) :: recvs evs
  | _ :: evs => recvs evs

/-- The Go result of `sendToDoH` on a query under an upstream behaviour. -/
def answer (net : Net) (q : Bytes) : Bytes × Option Error := (sendToDoH net q []).2

/-! ## Auxiliary definitions of the proofs -/

/-- The 6-bit values of the encoding, before the table lookup, in arithmetic form. -/
def sextetsOf : Bytes → List Nat
  | a :: b :: c :: rest =>
    let val := a.val * 65536 + b.val * 256 + c.val
    (val / 262144 % 64) :: (val / 4096 % 64) :: (val / 64 % 64) :: (val % 64) :: sextetsOf rest
  | [a, b] =>
    let val := a.val * 65536 + b.val * 256
    [val / 262144 % 64, val / 4096 % 64, val / 64 % 64]
  | [a] =>
    let val := a.val * 65536
    [val / 262144 % 64, val / 4096 % 64]
  | [] => []

/-- The value of the `dns` parameter of a URL built on `dohEndpoint`: the characters that
follow `<endpoint>?dns=`. -/
def dnsParamOf (url : String) : String :=
  String.mk (url.toList.drop (dohEndpoint.length + "?dns=".length))

/-- The request of the interface description: method `GET`, the URL of the query, and the
single header `Accept: application/dns-message`. -/
def dohRequest (q : Bytes) : Request :=
  { method := "GET", url := dohURL q, header := [("Accept", "application/dns-message")] }

/-- The upstream behaviour `net` with the status code of every response replaced. -/
def withStatus (net : Net) (code : Nat) : Net :=
  { parseURL := net.parseURL,
    roundTrip := fun req =>
      match net.roundTrip req with
      | Except.error err => Except.error err
      | Except.ok resp => Except.ok { statusCode := code, body := resp.body } }

/-- An upstream that accepts every URL and answers every request with one response. -/
def fixedNet (code : Nat) (body : Body) : Net :=
  { parseURL := fun _ => none,
    roundTrip := fun _ => Except.ok { statusCode := code, body := body } }

/-- A body whose reader delivers two bytes and then fails. -/
def cutBody : Body := { chunks := [[1, 2]], err := some { msg := "unexpected EOF" } }

/-- A body delivered in two chunks up to the end of the stream. -/
def wholeBody : Body := { chunks := [[1, 2], [3]], err := none }

/-- What a goroutine holds for its whole life: its query, its client address, its `n`. -/
def taskKey (t : Task) : Bytes × UDPAddr × Nat := (t.query, t.clientAddr, t.n)

/-- What the loop hands to the goroutine of a datagram: at most the first 512 bytes of the
payload, the sender, and the number of bytes read. -/
def recvKey (pa : Bytes × UDPAddr) : Bytes × UDPAddr × Nat :=
  (pa.1.take 512, pa.2, min pa.1.length 512)

/-- The task the loop starts for a datagram of payload `p` from `a`. -/
def taskFor (p : Bytes) (a : UDPAddr) : Task :=
  { query := p.take (min p.length 512), clientAddr := a, n := min p.length 512,
    phase := Phase.spawned }

/-- The datagrams a goroutine writes for a result of `sendToDoH`. -/
def replies (res : Bytes × Option Error) (a : UDPAddr) : List Datagram :=
  match res.2 with
  | none => [{ payload := res.1, addr := a }]
  | some _ => []

/-- Invariant of the states reached under a schedule `evs`. -/
structure Inv (evs : List Event) (s : Sys) : Prop where
  alive : s.panicked = false
  buflen : s.buf.length = 512
  keys : s.tasks.map taskKey = (recvs evs).map recvKey
  ret : ∀ (i : Nat) (t : Task) (resp : Bytes) (err : Option Error),
    s.tasks[i]? = some t → t.phase = Phase.returned resp err →
    ∃ net : Net, Event.forward i net ∈ evs ∧ answer net t.query = (resp, err)
  sent : ∀ d ∈ s.sent, ∃ (i : Nat) (t : Task) (net : Net), s.tasks[i]? = some t ∧ t.clientAddr = d.addr ∧
    Event.forward i net ∈ evs ∧ answer net t.query = (d.payload, none)
  wire : ∀ req ∈ s.wire, ∃ (i : Nat) (t : Task), s.tasks[i]? = some t ∧ req = dohRequest t.query

/-! ## Concrete inputs -/

def addrA : UDPAddr := { ip := "192.0.2.1", port := 40000 }

def addrB : UDPAddr := { ip := "192.0.2.2", port := 40001 }

/-- An upstream that cannot be reached: every exchange is a transport error. -/
def downNet : Net :=
  { parseURL := fun _ => none,
    roundTrip := fun _ => Except.error { msg := "dial tcp: connection refused" } }

/-- An upstream whose answer depends on the request: the body is the length of the URL. -/
def lengthNet : Net :=
  { parseURL := fun _ => none,
    roundTrip := fun req =>
      Except.ok { statusCode := 200, body := { chunks := [[toByte req.url.length]], err := none } } }

/-- One datagram is received and its goroutine is started. -/
def oneQuery : List Event := [Event.recv (Recv.dgram [1, 2, 3] addrA)]

/-- Two datagrams are received, the second task is served first, and a read error and a
third read of the socket fall between the steps of the tasks. -/
def twoQueries : List Event :=
  [Event.recv (Recv.dgram [1] addrA), Event.recv (Recv.dgram [2, 2, 2, 2] addrB),
   Event.forward 1 lengthNet, Event.recv (Recv.fail { msg := "read udp: interrupted" }),
   Event.forward 0 lengthNet, Event.reply 1, Event.reply 0]

/-! ## Arithmetic of the bit operations -/

theorem val3 (a b c : Nat) (hb : b < 256) (hc : c < 256) :
    (a <<< 16 ||| b <<< 8 ||| c) = a * 65536 + b * 256 + c := by
  have h1 : a <<< 16 ||| b <<< 8 = a * 65536 + b * 256 := by
    rw [Nat.shiftLeft_eq, Nat.shiftLeft_eq]
    have := Nat.mul_add_lt_is_or (i := 16) (b := b * 2 ^ 8) (by omega) a
    rw [Nat.mul_comm a (2 ^ 16), ← this]; omega
  rw [h1]
  have := Nat.mul_add_lt_is_or (i := 8) (b := c) (by omega) (a * 256 + b)
  have e : a * 65536 + b * 256 = 2 ^ 8 * (a * 256 + b) := by omega
  rw [e, ← this]

theorem val2 (a b : Nat) (hb : b < 256) :
    (a <<< 16 ||| b <<< 8) = a * 65536 + b * 256 := by
  have := val3 a b 0 hb (by decide)
  simpa using this

theorem sext4 (s0 s1 s2 s3 : Nat) (h1 : s1 < 64) (h2 : s2 < 64) (h3 : s3 < 64) :
    (s0 <<< 18 ||| s1 <<< 12 ||| s2 <<< 6 ||| s3) =
      s0 * 262144 + s1 * 4096 + s2 * 64 + s3 := by
  have e1 : s0 <<< 18 ||| s1 <<< 12 = s0 * 262144 + s1 * 4096 := by
    rw [Nat.shiftLeft_eq, Nat.shiftLeft_eq]
    have := Nat.mul_add_lt_is_or (i := 18) (b := s1 * 2 ^ 12) (by omega) s0
    rw [Nat.mul_comm s0 (2 ^ 18), ← this]; omega
  have e2 : s0 * 262144 + s1 * 4096 ||| s2 <<< 6 = s0 * 262144 + s1 * 4096 + s2 * 64 := by
    rw [Nat.shiftLeft_eq]
    have := Nat.mul_add_lt_is_or (i := 12) (b := s2 * 2 ^ 6) (by omega) (s0 * 64 + s1)
    have e : s0 * 262144 + s1 * 4096 = 2 ^ 12 * (s0 * 64 + s1) := by omega
    rw [e, ← this]; omega
  rw [e1, e2]
  have := Nat.mul_add_lt_is_or (i := 6) (b := s3) (by omega) (s0 * 4096 + s1 * 64 + s2)
  have e : s0 * 262144 + s1 * 4096 + s2 * 64 = 2 ^ 6 * (s0 * 4096 + s1 * 64 + s2) := by omega
  rw [e, ← this]

theorem sext3 (s0 s1 s2 : Nat) (h1 : s1 < 64) (h2 : s2 < 64) :
    (s0 <<< 18 ||| s1 <<< 12 ||| s2 <<< 6) = s0 * 262144 + s1 * 4096 + s2 * 64 := by
  have := sext4 s0 s1 s2 0 h1 h2 (by omega)
  simpa using this

theorem sext2 (s0 s1 : Nat) (h1 : s1 < 64) :
    (s0 <<< 18 ||| s1 <<< 12) = s0 * 262144 + s1 * 4096 := by
  have := sext3 s0 s1 0 h1 (by omega)
  simpa using this

theorem and63 (x : Nat) : x &&& 0x3F = x % 64 := Nat.and_pow_two_sub_one_eq_mod x 6

/-! ## The alphabet -/

theorem decodeMap_encTab_fin : ∀ i : Fin 64, decodeMap (encTab i.val) = some i.val := by
  decide

theorem encTab_ne_nl_fin :
    ∀ i : Fin 64, ¬ (encTab i.val = '\n' ∨ encTab i.val = '\r') := by
  decide

theorem encTab_safe_fin :
    ∀ i : Fin 64, encTab i.val ≠ '=' ∧ urlSafe (encTab i.val) = true := by
  decide

theorem decodeMap_encTab (n : Nat) : decodeMap (encTab (n % 64)) = some (n % 64) :=
  decodeMap_encTab_fin ⟨n % 64, Nat.mod_lt n (by decide)⟩

theorem encTab_ne_nl (n : Nat) : ¬ (encTab (n % 64) = '\n' ∨ encTab (n % 64) = '\r') :=
  encTab_ne_nl_fin ⟨n % 64, Nat.mod_lt n (by decide)⟩

/-! ## Encoding as sextets followed by the table lookup -/

theorem Encode_eq_map (q : Bytes) : Encode q = (sextetsOf q).map encTab := by
  induction q using Encode.induct with
  | case1 a b c rest ih =>
    simp only [Encode, sextetsOf, List.map_cons, ih, and63, Nat.shiftRight_eq_div_pow,
      val3 a.val b.val c.val b.isLt c.isLt]
  | case2 a b =>
    simp only [Encode, sextetsOf, List.map_cons, List.map_nil, and63, Nat.shiftRight_eq_div_pow,
      val2 a.val b.val b.isLt]
  | case3 a =>
    simp only [Encode, sextetsOf, List.map_cons, List.map_nil, and63, Nat.shiftRight_eq_div_pow,
      Nat.shiftLeft_eq]
  | case4 => rfl

theorem sextetsOf_lt (q : Bytes) : ∀ v ∈ sextetsOf q, v < 64 := by
  induction q using sextetsOf.induct with
  | case1 a b c rest ih =>
    intro v hv
    simp only [sextetsOf, List.mem_cons] at hv
    rcases hv with h | h | h | h | h
    · omega
    · omega
    · omega
    · omega
    · exact ih v h
  | case2 a b =>
    intro v hv
    simp only [sextetsOf, List.mem_cons, List.mem_singleton, List.not_mem_nil, or_false] at hv
    rcases hv with h | h | h <;> omega
  | case3 a =>
    intro v hv
    simp only [sextetsOf, List.mem_cons, List.mem_singleton, List.not_mem_nil, or_false] at hv
    rcases hv with h | h <;> omega
  | case4 => intro v hv; simp [sextetsOf] at hv

theorem sextetsOf_length (q : Bytes) : (sextetsOf q).length = EncodedLen q.length := by
  induction q using sextetsOf.induct with
  | case1 a b c rest ih =>
    simp only [sextetsOf, List.length_cons, ih, EncodedLen]
    omega
  | case2 a b => simp [sextetsOf, EncodedLen]
  | case3 a => simp [sextetsOf, EncodedLen]
  | case4 => rfl

theorem decodeSextets_map (vs : List Nat) (h : ∀ v ∈ vs, v < 64) :
    decodeSextets (vs.map encTab) = some vs := by
  induction vs with
  | nil => rfl
  | cons v vs ih =>
    have hv : v < 64 := h v (List.mem_cons_self _ _)
    have e : v = v % 64 := (Nat.mod_eq_of_lt hv).symm
    have h1 := decodeMap_encTab v
    have h2 := encTab_ne_nl v
    rw [← e] at h1 h2
    simp only [List.map_cons, decodeSextets, if_neg h2, h1,
      ih (fun w hw => h w (List.mem_cons_of_mem _ hw))]

theorem decodeQuanta_sextetsOf (q : Bytes) : decodeQuanta (sextetsOf q) = some q := by
  induction q using sextetsOf.induct with
  | case1 a b c rest ih =>
    have ha := a.isLt; have hb := b.isLt; have hc := c.isLt
    simp only [sextetsOf, decodeQuanta, ih]
    rw [sext4 _ _ _ _ (Nat.mod_lt _ (by decide)) (Nat.mod_lt _ (by decide))
      (Nat.mod_lt _ (by decide))]
    simp only [Nat.shiftRight_eq_div_pow, toByte, Option.some.injEq, List.cons.injEq, and_true]
    refine ⟨Fin.ext ?_, Fin.ext ?_, Fin.ext ?_⟩ <;> simp only [] <;> omega
  | case2 a b =>
    have ha := a.isLt; have hb := b.isLt
    simp only [sextetsOf, decodeQuanta]
    rw [sext3 _ _ _ (Nat.mod_lt _ (by decide)) (Nat.mod_lt _ (by decide))]
    simp only [Nat.shiftRight_eq_div_pow, toByte, Option.some.injEq, List.cons.injEq, and_true]
    refine ⟨Fin.ext ?_, Fin.ext ?_⟩ <;> simp only [] <;> omega
  | case3 a =>
    have ha := a.isLt
    simp only [sextetsOf, decodeQuanta]
    rw [sext2 _ _ (Nat.mod_lt _ (by decide))]
    simp only [Nat.shiftRight_eq_div_pow, toByte, Option.some.injEq, List.cons.injEq, and_true]
    refine Fin.ext ?_
    simp only []; omega
  | case4 => rfl

/-! ## The `dns` parameter -/

/-- C1: for every byte sequence `q`, of any length, the value `sendToDoH` puts after
`?dns=` in the URL is `EncodeToString q`, and standard unpadded base64url decoding of it
succeeds and gives back exactly `q`. -/
theorem dns_param_roundtrip (q : Bytes) :
    dohURL q = dohEndpoint ++ "?dns=" ++ EncodeToString q ∧
      DecodeString (EncodeToString q) = some q := by
  refine ⟨rfl, ?_⟩
  simp only [DecodeString, EncodeToString, Encode_eq_map, String.toList,
    decodeSextets_map _ (sextetsOf_lt q), decodeQuanta_sextetsOf]

theorem encode_alphabet (q : Bytes) :
    ∀ c ∈ (EncodeToString q).toList, c ≠ '=' ∧ urlSafe c = true := by
  intro c hc
  simp only [EncodeToString, String.toList, Encode_eq_map, List.mem_map] at hc
  obtain ⟨v, hv, rfl⟩ := hc
  exact encTab_safe_fin ⟨v, sextetsOf_lt q v hv⟩

theorem encode_length (q : Bytes) : (EncodeToString q).length = EncodedLen q.length := by
  simp only [EncodeToString, String.length, Encode_eq_map, List.length_map, sextetsOf_length]

theorem dnsParamOf_dohURL (q : Bytes) : dnsParamOf (dohURL q) = EncodeToString q := by
  have h : (dohURL q).toList = (dohEndpoint ++ "?dns=").toList ++ Encode q := by
    simp only [dohURL, EncodeToString, String.toList, String.data_append]
  have hl : (dohEndpoint ++ "?dns=").toList.length = dohEndpoint.length + "?dns=".length := by
    decide
  unfold dnsParamOf
  rw [h, List.drop_left' hl]
  rfl

theorem dohURL_split (q : Bytes) :
    dohURL q = dohEndpoint ++ "?dns=" ++ dnsParamOf (dohURL q) := by
  rw [dnsParamOf_dohURL]
  rfl

/-! ## The forwarder -/

theorem ReadAll_loop_eq (cs : List Bytes) (err : Option Error) (b : Bytes) :
    ReadAll.loop cs err b = (b ++ cs.flatten, err) := by
  induction cs generalizing b with
  | nil => simp [ReadAll.loop]
  | cons c cs ih => simp [ReadAll.loop, ih]

theorem ReadAll_eq (r : Body) : ReadAll r = (r.chunks.flatten, r.err) := by
  simp [ReadAll, ReadAll_loop_eq]

theorem dohRequest_def (q : Bytes) :
    ({ method := "GET", url := dohURL q, header := [("Accept", "application/dns-message")] } :
      Request) = dohRequest q := rfl

theorem sendToDoH_eq (net : Net) (q : Bytes) (wire : List Request) :
    sendToDoH net q wire =
      match net.parseURL (dohURL q) with
      | some err => (wire, ([], some err))
      | none =>
        match net.roundTrip (dohRequest q) with
        | Except.error err => (wire ++ [dohRequest q], ([], some err))
        | Except.ok resp => (wire ++ [dohRequest q], (resp.body.chunks.flatten, resp.body.err)) := by
  have hset : Header.Set [] "Accept" "application/dns-message" =
      [("Accept", "application/dns-message")] := rfl
  cases hp : net.parseURL (dohURL q) with
  | some err => simp only [sendToDoH, NewRequest, hp]
  | none =>
    cases hr : net.roundTrip (dohRequest q) with
    | error err =>
      simp only [sendToDoH, NewRequest, hp, ClientDo, hset, dohRequest_def]
      rw [hr]
    | ok resp =>
      simp only [sendToDoH, NewRequest, hp, ClientDo, hset, dohRequest_def]
      rw [hr]
      simp only [ReadAll_eq]

theorem sendToDoH_result (net : Net) (q : Bytes) (wire : List Request) :
    (sendToDoH net q wire).2 = answer net q := by
  simp only [answer, sendToDoH_eq]
  cases net.parseURL (dohURL q) with
  | some err => rfl
  | none =>
    cases net.roundTrip (dohRequest q) with
    | error err => rfl
    | ok resp => rfl

/-- C3: for every query `q`, `sendToDoH` issues no request when `http.NewRequest` rejects
the URL, and otherwise issues exactly one request: method `GET`, the single header
`Accept: application/dns-message`, and the URL `https://cloudflare-dns.com/dns-query`
followed by `?dns=` and the unpadded base64url encoding of `q`. For the empty query that
URL is `https://cloudflare-dns.com/dns-query?dns=`. -/
theorem request_shape (net : Net) (q : Bytes) (wire : List Request) :
    (sendToDoH net q wire).1 =
        (match net.parseURL ("https://cloudflare-dns.com/dns-query" ++ "?dns=" ++
            EncodeToString q) with
        | some _ => wire
        | none =>
          wire ++ [{ method := "GET",
                     url := "https://cloudflare-dns.com/dns-query" ++ "?dns=" ++ EncodeToString q,
                     header := [("Accept", "application/dns-message")] }]) ∧
      Header.Get (Header.Set [] "Accept" "application/dns-message") "Accept" =
        some "application/dns-message" ∧
      dohURL [] = "https://cloudflare-dns.com/dns-query?dns=" := by
  refine ⟨?_, by decide, by decide⟩
  rw [sendToDoH_eq]
  show _ = (match net.parseURL (dohURL q) with
    | some _ => wire
    | none => wire ++ [dohRequest q])
  cases net.parseURL (dohURL q) with
  | some err => rfl
  | none =>
    cases net.roundTrip (dohRequest q) with
    | error err => rfl
    | ok resp => rfl

/-- C4: when the request is constructed, the exchange succeeds with a response of status
`code` and body `body`, and reading the body reaches the end of the stream, `sendToDoH`
returns all the bytes of the body and a nil error, whatever `code` is; and replacing the
status code of the upstream responses never changes what `sendToDoH` returns. -/
theorem body_verbatim (net : Net) (q : Bytes) (wire : List Request) (code : Nat) (body : Body)
    (hreq : net.parseURL (dohURL q) = none)
    (hdo : net.roundTrip (dohRequest q) = Except.ok { statusCode := code, body := body })
    (hread : body.err = none) :
    (sendToDoH net q wire).2 = (body.chunks.flatten, none) ∧
      ∀ code2 : Nat,
        (sendToDoH (withStatus net code2) q wire).2 = (sendToDoH net q wire).2 := by
  constructor
  · rw [sendToDoH_eq]
    simp only [hreq, hdo, hread]
  · intro code2
    rw [sendToDoH_eq, sendToDoH_eq]
    simp only [withStatus, hreq, hdo]

/-- Witness of C4: a response of status 503 whose body arrives in two chunks. -/
theorem body_verbatim_witness :
    (fixedNet 503 wholeBody).parseURL (dohURL [7]) = none ∧
      (fixedNet 503 wholeBody).roundTrip (dohRequest [7]) =
        Except.ok { statusCode := 503, body := wholeBody } ∧
      wholeBody.err = none ∧
      (sendToDoH (fixedNet 503 wholeBody) [7] []).2 = ([1, 2, 3], none) :=
  ⟨rfl, rfl, rfl, (body_verbatim (fixedNet 503 wholeBody) [7] [] 503 wholeBody rfl rfl rfl).1⟩

/-- Counterexample to C5 as stated: the body reader fails after two bytes, and `sendToDoH`
returns a non-nil error together with those two bytes. -/
theorem body_error_keeps_bytes :
    (sendToDoH (fixedNet 200 cutBody) [] []).2.2 = some { msg := "unexpected EOF" } ∧
      (sendToDoH (fixedNet 200 cutBody) [] []).2.1 = [1, 2] ∧
      (sendToDoH (fixedNet 200 cutBody) [] []).2.1 ≠ [] := by
  refine ⟨rfl, rfl, ?_⟩
  intro h
  exact absurd h (by decide)

/-- C5, amended: every call of `sendToDoH` ends either with a nil error or with a non-nil
error. When `http.NewRequest` fails and when the exchange fails, the error comes with a
nil slice. After a successful exchange the result is that of `io.ReadAll`: all bytes of
the body and a nil error at the end of the stream, or the read error together with the
bytes read before it. -/
theorem outcome_cases (net : Net) (q : Bytes) (wire : List Request) :
    (sendToDoH net q wire).2 =
      match net.parseURL (dohURL q) with
      | some err => ([], some err)
      | none =>
        match net.roundTrip (dohRequest q) with
        | Except.error err => ([], some err)
        | Except.ok resp => (resp.body.chunks.flatten, resp.body.err) := by
  rw [sendToDoH_eq]
  cases net.parseURL (dohURL q) with
  | some err => rfl
  | none =>
    cases net.roundTrip (dohRequest q) with
    | error err => rfl
    | ok resp => rfl

/-! ## The relay loop and its goroutines -/

theorem recvs_append (evs evs2 : List Event) : recvs (evs ++ evs2) = recvs evs ++ recvs evs2 := by
  induction evs with
  | nil => rfl
  | cons e evs ih =>
    cases e with
    | recv r =>
      cases r with
      | fail err => simpa [recvs] using ih
      | dgram p a => simpa [recvs] using ih
    | forward i net => simpa [recvs] using ih
    | reply i => simpa [recvs] using ih

theorem run_append (s : Sys) (evs evs2 : List Event) :
    run s (evs ++ evs2) = run (run s evs) evs2 := by
  simp [run, List.foldl_append]

theorem run_snoc (s : Sys) (evs : List Event) (e : Event) :
    run s (evs ++ [e]) = step (run s evs) e := by
  simp [run, List.foldl_append]

theorem take_min_length (p : Bytes) : p.take (min p.length 512) = p.take 512 := by
  rcases Nat.le_total p.length 512 with h | h
  · rw [Nat.min_eq_left h, List.take_of_length_le h, List.take_of_length_le (Nat.le_refl _)]
  · rw [Nat.min_eq_right h]

theorem sliceTo_length (q : Bytes) : sliceTo q q.length = some q := by
  simp [sliceTo]

theorem length_take_min (p : Bytes) : (p.take (min p.length 512)).length = min p.length 512 := by
  rw [List.length_take]; omega

theorem step_recv_dgram (s : Sys) (hal : s.panicked = false) (hbuf : s.buf.length = 512)
    (p : Bytes) (a : UDPAddr) :
    step s (Event.recv (Recv.dgram p a)) =
      { s with buf := p.take (min p.length 512) ++ s.buf.drop (min p.length 512),
               tasks := s.tasks ++ [taskFor p a] } := by
  have hlen := length_take_min p
  have hsl : sliceTo (p.take (min p.length 512) ++ s.buf.drop (min p.length 512))
      (min p.length 512) = some (p.take (min p.length 512)) := by
    unfold sliceTo
    rw [if_pos (by rw [List.length_append, hlen]; omega)]
    rw [List.take_append_of_le_length (by omega), List.take_of_length_le (by omega)]
  simp only [step, hal, loopIter, ReadFromUDP, hbuf, hsl, List.nil_append, taskFor]
  rfl

theorem step_recv_fail (s : Sys) (err : Error) : step s (Event.recv (Recv.fail err)) = s := by
  unfold step
  split
  · rfl
  · rfl

theorem goCall_own (net : Net) (q : Bytes) (wire : List Request) :
    goCall net q q.length wire = some (sendToDoH net q wire) := by
  simp [goCall, sliceTo_length]

theorem step_forward_spawned (s : Sys) (hal : s.panicked = false) (i : Nat) (t : Task)
    (net : Net) (hget : s.tasks[i]? = some t) (hph : t.phase = Phase.spawned)
    (hn : t.n = t.query.length) :
    step s (Event.forward i net) =
      { s with wire := (sendToDoH net t.query s.wire).1,
               tasks := s.tasks.set i
                 { t with phase := Phase.returned (answer net t.query).1 (answer net t.query).2 } } := by
  simp only [step, hal, taskForward, hget, hph, hn, goCall_own, ← sendToDoH_result net t.query s.wire]
  rfl

theorem step_forward_other (s : Sys) (i : Nat) (t : Task) (net : Net)
    (hget : s.tasks[i]? = some t) (hph : t.phase ≠ Phase.spawned) :
    step s (Event.forward i net) = s := by
  unfold step
  split
  · rfl
  · simp only [taskForward, hget]

theorem step_forward_none (s : Sys) (i : Nat) (net : Net) (hget : s.tasks[i]? = none) :
    step s (Event.forward i net) = s := by
  unfold step
  split
  · rfl
  · simp only [taskForward, hget]

theorem step_reply_returned (s : Sys) (hal : s.panicked = false) (i : Nat) (t : Task)
    (resp : Bytes) (err : Option Error)
    (hget : s.tasks[i]? = some t) (hph : t.phase = Phase.returned resp err) :
    step s (Event.reply i) =
      { s with sent := goFinish resp err t.clientAddr s.sent,
               tasks := s.tasks.set i { t with phase := Phase.done } } := by
  simp only [step, hal, taskReply, hget, hph]
  rfl

theorem step_reply_other (s : Sys) (i : Nat) (t : Task)
    (hget : s.tasks[i]? = some t) (hph : ∀ resp err, t.phase ≠ Phase.returned resp err) :
    step s (Event.reply i) = s := by
  unfold step
  split
  · rfl
  · simp only [taskReply, hget]

theorem step_reply_none (s : Sys) (i : Nat) (hget : s.tasks[i]? = none) :
    step s (Event.reply i) = s := by
  unfold step
  split
  · rfl
  · simp only [taskReply, hget]

theorem goFinish_eq (resp : Bytes) (err : Option Error) (a : UDPAddr) (sent : List Datagram) :
    goFinish resp err a sent = sent ++ replies (resp, err) a := by
  cases err with
  | none => rfl
  | some e => simp [goFinish, replies]

theorem map_set_same {α β : Type} (f : α → β) (l : List α) (i : Nat) (t t2 : α)
    (hget : l[i]? = some t) (hk : f t2 = f t) : (l.set i t2).map f = l.map f := by
  induction l generalizing i with
  | nil => rfl
  | cons x xs ih =>
    cases i with
    | zero =>
      simp only [List.getElem?_cons_zero, Option.some.injEq] at hget
      simp [List.set, hk, hget]
    | succ j =>
      simp only [List.getElem?_cons_succ] at hget
      simp [List.set, ih j hget]

theorem getElem?_set_agree (l : List Task) (i : Nat) (t t2 : Task) (hget : l[i]? = some t)
    (hq : t2.query = t.query) (ha : t2.clientAddr = t.clientAddr)
    (j : Nat) (t0 : Task) (hj : l[j]? = some t0) :
    ∃ t1, (l.set i t2)[j]? = some t1 ∧ t1.query = t0.query ∧ t1.clientAddr = t0.clientAddr := by
  rw [List.getElem?_set]
  by_cases hij : i = j
  · subst hij
    have hlt : i < l.length := (List.getElem?_eq_some.mp hget).1
    rw [hget] at hj
    cases hj
    exact ⟨t2, by simp [hlt], hq, ha⟩
  · exact ⟨t0, by simp [hij, hj], rfl, rfl⟩

theorem keys_n (evs : List Event) (s : Sys) (hk : s.tasks.map taskKey = (recvs evs).map recvKey)
    (i : Nat) (t : Task) (hget : s.tasks[i]? = some t) :
    ∃ pa, (recvs evs)[i]? = some pa ∧ t.query = pa.1.take 512 ∧ t.clientAddr = pa.2 ∧
      t.n = min pa.1.length 512 := by
  have h1 : (s.tasks.map taskKey)[i]? = some (taskKey t) := by
    rw [List.getElem?_map, hget]; rfl
  rw [hk, List.getElem?_map] at h1
  cases hr : (recvs evs)[i]? with
  | none => rw [hr] at h1; cases h1
  | some pa =>
    rw [hr] at h1
    simp only [Option.map_some', Option.some.injEq, recvKey, taskKey, Prod.mk.injEq] at h1
    exact ⟨pa, rfl, h1.1.symm, h1.2.1.symm, h1.2.2.symm⟩

theorem keys_len (evs : List Event) (s : Sys)
    (hk : s.tasks.map taskKey = (recvs evs).map recvKey)
    (i : Nat) (t : Task) (hget : s.tasks[i]? = some t) : t.n = t.query.length := by
  obtain ⟨pa, _, hq, _, hn⟩ := keys_n evs s hk i t hget
  rw [hq, hn, List.length_take]
  omega

theorem Inv.idle {evs : List Event} {s : Sys} (h : Inv evs s) (e : Event)
    (hr : recvs [e] = []) : Inv (evs ++ [e]) s where
  alive := h.alive
  buflen := h.buflen
  keys := by rw [recvs_append, hr, List.append_nil]; exact h.keys
  ret := fun i t resp err hget hph => by
    obtain ⟨net, hmem, hans⟩ := h.ret i t resp err hget hph
    exact ⟨net, List.mem_append_left _ hmem, hans⟩
  sent := fun d hd => by
    obtain ⟨i, t, net, hget, ha, hmem, hans⟩ := h.sent d hd
    exact ⟨i, t, net, hget, ha, List.mem_append_left _ hmem, hans⟩
  wire := h.wire

theorem Inv.recv_dgram {evs : List Event} {s : Sys} (h : Inv evs s) (p : Bytes) (a : UDPAddr) :
    Inv (evs ++ [Event.recv (Recv.dgram p a)]) (step s (Event.recv (Recv.dgram p a))) := by
  rw [step_recv_dgram s h.alive h.buflen p a]
  have hold : ∀ (i : Nat) (t : Task), s.tasks[i]? = some t →
      (s.tasks ++ [taskFor p a])[i]? = some t := by
    intro i t hget
    rw [List.getElem?_append_left (List.getElem?_eq_some.mp hget).1]
    exact hget
  refine ⟨h.alive, ?_, ?_, ?_, ?_, ?_⟩
  · show (p.take (min p.length 512) ++ s.buf.drop (min p.length 512)).length = 512
    rw [List.length_append, length_take_min, List.length_drop, h.buflen]
    omega
  · show (s.tasks ++ [taskFor p a]).map taskKey = _
    rw [recvs_append, List.map_append, List.map_append, h.keys]
    simp only [recvs, List.map_cons, List.map_nil, taskKey, taskFor, recvKey, take_min_length]
  · intro i t resp err hget hph
    change (s.tasks ++ [taskFor p a])[i]? = some t at hget
    rw [List.getElem?_append] at hget
    by_cases hi : i < s.tasks.length
    · rw [if_pos hi] at hget
      obtain ⟨net, hmem, hans⟩ := h.ret i t resp err hget hph
      exact ⟨net, List.mem_append_left _ hmem, hans⟩
    · rw [if_neg hi] at hget
      have ht : t = taskFor p a := by
        cases hk : i - s.tasks.length with
        | zero => rw [hk] at hget; simpa using hget.symm
        | succ k => rw [hk] at hget; simp at hget
      rw [ht] at hph
      cases hph
  · intro d hd
    obtain ⟨i, t, net, hget, ha, hmem, hans⟩ := h.sent d hd
    exact ⟨i, t, net, hold i t hget, ha, List.mem_append_left _ hmem, hans⟩
  · intro req hreq
    obtain ⟨i, t, hget, he⟩ := h.wire req hreq
    exact ⟨i, t, hold i t hget, he⟩

theorem wire_after (net : Net) (q : Bytes) (wire : List Request) :
    ∀ req ∈ (sendToDoH net q wire).1, req ∈ wire ∨ req = dohRequest q := by
  intro req hreq
  rw [sendToDoH_eq] at hreq
  cases hp : net.parseURL (dohURL q) with
  | some err => rw [hp] at hreq; exact Or.inl hreq
  | none =>
    rw [hp] at hreq
    cases hr : net.roundTrip (dohRequest q) with
    | error err =>
      rw [hr] at hreq
      simpa using hreq
    | ok resp =>
      rw [hr] at hreq
      simpa using hreq

theorem Inv.forward {evs : List Event} {s : Sys} (h : Inv evs s) (i : Nat) (net : Net) :
    Inv (evs ++ [Event.forward i net]) (step s (Event.forward i net)) := by
  cases hget : s.tasks[i]? with
  | none => rw [step_forward_none s i net hget]; exact h.idle _ rfl
  | some t =>
    by_cases hph : t.phase = Phase.spawned
    · rw [step_forward_spawned s h.alive i t net hget hph (keys_len evs s h.keys i t hget)]
      have hagree := getElem?_set_agree s.tasks i t
        { t with phase := Phase.returned (answer net t.query).1 (answer net t.query).2 } hget rfl rfl
      refine ⟨h.alive, h.buflen, ?_, ?_, ?_, ?_⟩
      · rw [recvs_append]
        simp only [recvs, List.append_nil]
        rw [← h.keys]
        exact map_set_same taskKey s.tasks i t _ hget rfl
      · intro j t1 resp err hj hp1
        change (s.tasks.set i _)[j]? = some t1 at hj
        rw [List.getElem?_set] at hj
        by_cases hij : i = j
        · subst hij
          have hlt : i < s.tasks.length := (List.getElem?_eq_some.mp hget).1
          simp only [if_true, hlt] at hj
          cases hj
          simp only [Phase.returned.injEq] at hp1
          refine ⟨net, List.mem_append_right _ (List.mem_singleton_self _), ?_⟩
          show answer net t.query = (resp, err)
          rw [← hp1.1, ← hp1.2]
        · rw [if_neg hij] at hj
          obtain ⟨net1, hmem, hans⟩ := h.ret j t1 resp err hj hp1
          exact ⟨net1, List.mem_append_left _ hmem, hans⟩
      · intro d hd
        obtain ⟨j, t0, net0, hj, ha, hmem, hans⟩ := h.sent d hd
        obtain ⟨t1, hj1, hq1, ha1⟩ := hagree j t0 hj
        exact ⟨j, t1, net0, hj1, ha1.trans ha, List.mem_append_left _ hmem, by rw [hq1]; exact hans⟩
      · intro req hreq
        rcases wire_after net t.query s.wire req hreq with hold | hnew
        · obtain ⟨j, t0, hj, he⟩ := h.wire req hold
          obtain ⟨t1, hj1, hq1, _⟩ := hagree j t0 hj
          exact ⟨j, t1, hj1, by rw [hq1]; exact he⟩
        · obtain ⟨t1, hj1, hq1, _⟩ := hagree i t hget
          exact ⟨i, t1, hj1, by rw [hq1]; exact hnew⟩
    · rw [step_forward_other s i t net hget hph]; exact h.idle _ rfl

theorem Inv.reply {evs : List Event} {s : Sys} (h : Inv evs s) (i : Nat) :
    Inv (evs ++ [Event.reply i]) (step s (Event.reply i)) := by
  cases hget : s.tasks[i]? with
  | none => rw [step_reply_none s i hget]; exact h.idle _ rfl
  | some t =>
    cases hph : t.phase with
    | spawned =>
      rw [step_reply_other s i t hget (by intro resp err; rw [hph]; exact Phase.noConfusion)]
      exact h.idle _ rfl
    | done =>
      rw [step_reply_other s i t hget (by intro resp err; rw [hph]; exact Phase.noConfusion)]
      exact h.idle _ rfl
    | returned resp err =>
      rw [step_reply_returned s h.alive i t resp err hget hph, goFinish_eq]
      have hagree := getElem?_set_agree s.tasks i t { t with phase := Phase.done } hget rfl rfl
      refine ⟨h.alive, h.buflen, ?_, ?_, ?_, ?_⟩
      · rw [recvs_append]
        simp only [recvs, List.append_nil]
        rw [← h.keys]
        exact map_set_same taskKey s.tasks i t _ hget rfl
      · intro j t1 resp1 err1 hj hp1
        change (s.tasks.set i _)[j]? = some t1 at hj
        rw [List.getElem?_set] at hj
        by_cases hij : i = j
        · subst hij
          have hlt : i < s.tasks.length := (List.getElem?_eq_some.mp hget).1
          simp only [if_true, hlt] at hj
          cases hj
          cases hp1
        · rw [if_neg hij] at hj
          obtain ⟨net1, hmem, hans⟩ := h.ret j t1 resp1 err1 hj hp1
          exact ⟨net1, List.mem_append_left _ hmem, hans⟩
      · intro d hd
        change d ∈ s.sent ++ replies (resp, err) t.clientAddr at hd
        rcases List.mem_append.mp hd with hold | hnew
        · obtain ⟨j, t0, net0, hj, ha, hmem, hans⟩ := h.sent d hold
          obtain ⟨t1, hj1, hq1, ha1⟩ := hagree j t0 hj
          exact ⟨j, t1, net0, hj1, ha1.trans ha, List.mem_append_left _ hmem,
            by rw [hq1]; exact hans⟩
        · cases err with
          | some e => simp [replies] at hnew
          | none =>
            simp only [replies, List.mem_singleton] at hnew
            obtain ⟨net0, hmem, hans⟩ := h.ret i t resp none hget hph
            obtain ⟨t1, hj1, hq1, ha1⟩ := hagree i t hget
            refine ⟨i, t1, net0, hj1, ?_, List.mem_append_left _ hmem, ?_⟩
            · rw [ha1, hnew]
            · rw [hq1, hnew]; exact hans
      · intro req hreq
        obtain ⟨j, t0, hj, he⟩ := h.wire req hreq
        obtain ⟨t1, hj1, hq1, _⟩ := hagree j t0 hj
        exact ⟨j, t1, hj1, by rw [hq1]; exact he⟩

theorem Inv.init : Inv [] init where
  alive := rfl
  buflen := List.length_replicate _ _
  keys := rfl
  ret := fun i t resp err hget _ => by
    have h0 : ([] : List Task)[i]? = some t := hget
    simp at h0
  sent := fun d hd => absurd hd (List.not_mem_nil d)
  wire := fun req hreq => absurd hreq (List.not_mem_nil req)

theorem Inv.step {evs : List Event} {s : Sys} (h : Inv evs s) (e : Event) :
    Inv (evs ++ [e]) (step s e) := by
  cases e with
  | recv r =>
    cases r with
    | fail err => rw [step_recv_fail]; exact h.idle _ rfl
    | dgram p a => exact h.recv_dgram p a
  | forward i net => exact h.forward i net
  | reply i => exact h.reply i

theorem reachable (evs : List Event) : Inv evs (run init evs) := by
  induction evs using List.reverseRecOn with
  | nil => exact Inv.init
  | append_singleton evs e ih => rw [run_snoc]; exact ih.step e

theorem task_own {evs : List Event} {s : Sys} (h : Inv evs s) (i : Nat) (t : Task)
    (pa : Bytes × UDPAddr) (hget : s.tasks[i]? = some t) (hr : (recvs evs)[i]? = some pa) :
    t.query = pa.1.take 512 ∧ t.clientAddr = pa.2 ∧ t.n = t.query.length := by
  obtain ⟨pb, hb, hq, ha, _⟩ := keys_n evs s h.keys i t hget
  rw [hr] at hb
  cases hb
  exact ⟨hq, ha, keys_len evs s h.keys i t hget⟩

theorem goFunc_own (net : Net) (q : Bytes) (a : UDPAddr) (wire : List Request)
    (sent : List Datagram) :
    goFunc net q a q.length wire sent =
      some ((sendToDoH net q wire).1, sent ++ replies (answer net q) a) := by
  simp only [goFunc, goCall_own, goFinish_eq, ← sendToDoH_result net q wire]

theorem replies_length (res : Bytes × Option Error) (a : UDPAddr) : (replies res a).length ≤ 1 := by
  unfold replies
  cases res.2 with
  | none => simp
  | some e => simp

/-- C7: in every state the process can reach, a datagram of payload `p` from `a` makes the
loop start a goroutine whose `query` is the first `min (len p) 512` bytes of `p` (all of `p`
when it has at most 512 bytes, its first 512 bytes otherwise) and nothing of the old
content of `buf`; the slice `query[:n]` of that goroutine is in bounds and is that same
sequence, which is what `sendToDoH` is called with. In every reachable state the slice of
every goroutine is in bounds, so no panic ever happens. -/
theorem query_is_payload (evs : List Event) (p : Bytes) (a : UDPAddr) (net : Net)
    (wire : List Request) :
    (step (run init evs) (Event.recv (Recv.dgram p a))).tasks =
        (run init evs).tasks ++
          [{ query := p.take (min p.length 512), clientAddr := a, n := min p.length 512,
             phase := Phase.spawned }] ∧
      (step (run init evs) (Event.recv (Recv.dgram p a))).buf =
        p.take (min p.length 512) ++ (run init evs).buf.drop (min p.length 512) ∧
      sliceTo (p.take (min p.length 512)) (min p.length 512) =
        some (p.take (min p.length 512)) ∧
      goCall net (p.take (min p.length 512)) (min p.length 512) wire =
        some (sendToDoH net (p.take (min p.length 512)) wire) ∧
      p.take (min p.length 512) = (if p.length ≤ 512 then p else p.take 512) ∧
      (run init evs).panicked = false ∧
      ∀ t ∈ (run init evs).tasks, sliceTo t.query t.n = some t.query := by
  have h := reachable evs
  have hlen := length_take_min p
  rw [step_recv_dgram _ h.alive h.buflen p a]
  refine ⟨rfl, rfl, ?_, ?_, ?_, h.alive, ?_⟩
  · have := sliceTo_length (p.take (min p.length 512))
    rwa [hlen] at this
  · have := goCall_own net (p.take (min p.length 512)) wire
    rwa [hlen] at this
  · split
    · rename_i hle
      rw [Nat.min_eq_left hle, List.take_length]
    · rw [take_min_length]
  · intro t ht
    obtain ⟨i, hi, hget⟩ := List.getElem_of_mem ht
    have hn := keys_len evs _ h.keys i t (by rw [List.getElem?_eq_getElem hi, hget])
    rw [hn]
    exact sliceTo_length t.query

theorem oneQuery_tasks : (run init oneQuery).tasks = [taskFor [1, 2, 3] addrA] := by
  have h : run init oneQuery = step init (Event.recv (Recv.dgram [1, 2, 3] addrA)) := by
    simp only [oneQuery, run, List.foldl_cons, List.foldl_nil]
  rw [h, step_recv_dgram init rfl Inv.init.buflen]
  rfl

/-- Witness of C7: the goroutine started for a 3-byte datagram. -/
theorem query_is_payload_witness :
    taskFor [1, 2, 3] addrA ∈ (run init oneQuery).tasks ∧
      sliceTo (taskFor [1, 2, 3] addrA).query (taskFor [1, 2, 3] addrA).n =
        some (taskFor [1, 2, 3] addrA).query :=
  ⟨by rw [oneQuery_tasks]; exact List.mem_singleton_self _,
    (query_is_payload oneQuery [1, 2, 3] addrA downNet []).2.2.2.2.2.2 (taskFor [1, 2, 3] addrA)
      (by rw [oneQuery_tasks]; exact List.mem_singleton_self _)⟩

/-- C8: the goroutine started for a datagram from `a`, run from start to end, appends to
the log of `WriteToUDP` calls the list `replies`, which has at most one element; when
`sendToDoH` returns `r` with a nil error that list is the single datagram with payload `r`
and destination `a`. The same holds step by step under every schedule: the reply step of a
goroutine whose `sendToDoH` has returned appends `replies` for its own `clientAddr`, and a
goroutine that is done takes no further step. -/
theorem reply_once (evs : List Event) (p : Bytes) (a : UDPAddr) (net : Net)
    (wire : List Request) (sent : List Datagram) :
    (step (run init evs) (Event.recv (Recv.dgram p a))).tasks =
        (run init evs).tasks ++ [taskFor p a] ∧
      (taskFor p a).clientAddr = a ∧
      goFunc net (taskFor p a).query (taskFor p a).clientAddr (taskFor p a).n wire sent =
        some ((sendToDoH net (taskFor p a).query wire).1,
          sent ++ replies (answer net (taskFor p a).query) a) ∧
      (replies (answer net (taskFor p a).query) a).length ≤ 1 ∧
      (∀ r : Bytes, answer net (taskFor p a).query = (r, none) →
        replies (answer net (taskFor p a).query) a = [{ payload := r, addr := a }]) ∧
      (∀ (i : Nat) (t : Task) (resp : Bytes) (err : Option Error),
        (run init evs).tasks[i]? = some t → t.phase = Phase.returned resp err →
          (step (run init evs) (Event.reply i)).sent =
              (run init evs).sent ++ replies (resp, err) t.clientAddr ∧
            (step (run init evs) (Event.reply i)).tasks[i]? =
              some { t with phase := Phase.done }) ∧
      (∀ (i : Nat) (t : Task), (run init evs).tasks[i]? = some t → t.phase = Phase.done →
        step (run init evs) (Event.reply i) = run init evs ∧
          step (run init evs) (Event.forward i net) = run init evs) := by
  have h := reachable evs
  refine ⟨?_, rfl, ?_, replies_length _ _, ?_, ?_, ?_⟩
  · rw [step_recv_dgram _ h.alive h.buflen p a]
  · have := goFunc_own net (taskFor p a).query a wire sent
    rw [show (taskFor p a).query.length = (taskFor p a).n from length_take_min p] at this
    exact this
  · intro r hr
    rw [hr]
    rfl
  · intro i t resp err hget hph
    rw [step_reply_returned _ h.alive i t resp err hget hph, goFinish_eq]
    refine ⟨rfl, ?_⟩
    show ((run init evs).tasks.set i _)[i]? = _
    rw [List.getElem?_set]
    simp [(List.getElem?_eq_some.mp hget).1]
  · intro i t hget hph
    constructor
    · exact step_reply_other _ i t hget (by intro resp err; rw [hph]; exact Phase.noConfusion)
    · exact step_forward_other _ i t net hget (by rw [hph]; exact Phase.noConfusion)

/-- Witness of C8: the upstream answers with the bytes 1, 2, 3. -/
theorem reply_once_witness :
    answer (fixedNet 200 wholeBody) (taskFor [9, 9] addrA).query = ([1, 2, 3], none) ∧
      replies (answer (fixedNet 200 wholeBody) (taskFor [9, 9] addrA).query) addrA =
        [{ payload := [1, 2, 3], addr := addrA }] :=
  ⟨rfl, (reply_once [] [9, 9] addrA (fixedNet 200 wholeBody) [] []).2.2.2.2.1 [1, 2, 3] rfl⟩

theorem replies_error (r : Bytes) (e : Error) (a : UDPAddr) : replies (r, some e) a = [] := rfl

/-- C6: take any state the process can reach and a goroutine `i` in it that has not yet
called `sendToDoH`, and let the call return a non-nil error `e`. Run from start to end,
the body of the goroutine leaves the log of `WriteToUDP` calls as it was. Step by step:
the call itself writes nothing and leaves the goroutine holding the error; and under every
continuation `evs2` of the schedule the process has not panicked, the reply step of the
goroutine writes nothing, and a datagram delivered to the loop starts its goroutine. -/
theorem drop_on_error (evs : List Event) (i : Nat) (t : Task) (net : Net) (e : Error)
    (hget : (run init evs).tasks[i]? = some t) (hph : t.phase = Phase.spawned)
    (herr : (answer net t.query).2 = some e) :
    goFunc net t.query t.clientAddr t.n (run init evs).wire (run init evs).sent =
        some ((sendToDoH net t.query (run init evs).wire).1, (run init evs).sent) ∧
      (step (run init evs) (Event.forward i net)).sent = (run init evs).sent ∧
      (step (run init evs) (Event.forward i net)).tasks[i]? =
        some { t with phase := Phase.returned (answer net t.query).1 (some e) } ∧
      ∀ evs2 : List Event,
        (run (step (run init evs) (Event.forward i net)) evs2).panicked = false ∧
        (∀ (t2 : Task) (resp : Bytes),
          (run (step (run init evs) (Event.forward i net)) evs2).tasks[i]? = some t2 →
          t2.phase = Phase.returned resp (some e) →
            (step (run (step (run init evs) (Event.forward i net)) evs2) (Event.reply i)).sent =
                (run (step (run init evs) (Event.forward i net)) evs2).sent ∧
              (step (run (step (run init evs) (Event.forward i net)) evs2)
                (Event.reply i)).panicked = false) ∧
        (∀ (p : Bytes) (a : UDPAddr),
          (step (run (step (run init evs) (Event.forward i net)) evs2)
              (Event.recv (Recv.dgram p a))).tasks =
            (run (step (run init evs) (Event.forward i net)) evs2).tasks ++ [taskFor p a] ∧
          (step (run (step (run init evs) (Event.forward i net)) evs2)
              (Event.recv (Recv.dgram p a))).panicked = false) := by
  have h := reachable evs
  have hn := keys_len evs _ h.keys i t hget
  have hans : answer net t.query = ((answer net t.query).1, some e) := by
    rw [← herr]
  refine ⟨?_, ?_, ?_, ?_⟩
  · have := goFunc_own net t.query t.clientAddr (run init evs).wire (run init evs).sent
    rw [← hn, hans, replies_error, List.append_nil] at this
    exact this
  · rw [step_forward_spawned _ h.alive i t net hget hph hn]
  · rw [step_forward_spawned _ h.alive i t net hget hph hn]
    show ((run init evs).tasks.set i _)[i]? = _
    rw [List.getElem?_set, herr]
    simp [(List.getElem?_eq_some.mp hget).1]
  · intro evs2
    have h2 : Inv (evs ++ [Event.forward i net] ++ evs2)
        (run (step (run init evs) (Event.forward i net)) evs2) := by
      have := reachable (evs ++ [Event.forward i net] ++ evs2)
      rwa [run_append, run_snoc] at this
    refine ⟨h2.alive, ?_, ?_⟩
    · intro t2 resp hget2 hph2
      rw [step_reply_returned _ h2.alive i t2 resp (some e) hget2 hph2]
      exact ⟨rfl, h2.alive⟩
    · intro p a
      rw [step_recv_dgram _ h2.alive h2.buflen p a]
      exact ⟨rfl, h2.alive⟩

/-- Witness of C6: the upstream is unreachable when the goroutine of the first datagram
calls `sendToDoH`. -/
theorem drop_on_error_witness :
    (run init oneQuery).tasks[0]? = some (taskFor [1, 2, 3] addrA) ∧
      (taskFor [1, 2, 3] addrA).phase = Phase.spawned ∧
      (answer downNet (taskFor [1, 2, 3] addrA).query).2 =
        some { msg := "dial tcp: connection refused" } ∧
      (step (run init oneQuery) (Event.forward 0 downNet)).sent = (run init oneQuery).sent :=
  ⟨by rw [oneQuery_tasks]; rfl, rfl, rfl,
    (drop_on_error oneQuery 0 (taskFor [1, 2, 3] addrA) downNet
      { msg := "dial tcp: connection refused" } (by rw [oneQuery_tasks]; rfl) rfl rfl).2.1⟩

/-- C9: let a schedule deliver exactly two datagrams, `q1` from `a1` and then `q2` from
`a2` with `a1 ≠ a2`, interleaved in any way with read errors and with steps of the two
goroutines (each receive overwrites `buf`). Then in the state reached: the goroutines hold
`q1` with `a1` and `q2` with `a2` (cut to 512 bytes); every HTTPS request issued is the
request of `q1` or of `q2`; every datagram written goes to `a1` or `a2`, one written to
`a1` carries what `sendToDoH` returned for `q1` in a forward step of goroutine 0, and one
written to `a2` what it returned for `q2` in a forward step of goroutine 1; and the next
steps of goroutine 0 call `sendToDoH` with `q1` and reply to `a1`, those of goroutine 1
call it with `q2` and reply to `a2`. -/
theorem no_cross_talk (evs : List Event) (q1 q2 : Bytes) (a1 a2 : UDPAddr) (hne : a1 ≠ a2)
    (hrecv : recvs evs = [(q1, a1), (q2, a2)]) :
    (run init evs).tasks.map taskKey =
        [(q1.take 512, a1, min q1.length 512), (q2.take 512, a2, min q2.length 512)] ∧
      (∀ req ∈ (run init evs).wire,
        req = dohRequest (q1.take 512) ∨ req = dohRequest (q2.take 512)) ∧
      (∀ d ∈ (run init evs).sent,
        (d.addr = a1 ∨ d.addr = a2) ∧
        (d.addr = a1 → ∃ net : Net, Event.forward 0 net ∈ evs ∧
          answer net (q1.take 512) = (d.payload, none)) ∧
        (d.addr = a2 → ∃ net : Net, Event.forward 1 net ∈ evs ∧
          answer net (q2.take 512) = (d.payload, none))) ∧
      (∀ (t : Task) (net : Net), (run init evs).tasks[0]? = some t → t.phase = Phase.spawned →
        (step (run init evs) (Event.forward 0 net)).wire =
            (sendToDoH net (q1.take 512) (run init evs).wire).1 ∧
          (step (run init evs) (Event.forward 0 net)).tasks[0]? =
            some { t with phase := Phase.returned (answer net (q1.take 512)).1
                                     (answer net (q1.take 512)).2 }) ∧
      (∀ (t : Task) (net : Net), (run init evs).tasks[1]? = some t → t.phase = Phase.spawned →
        (step (run init evs) (Event.forward 1 net)).wire =
            (sendToDoH net (q2.take 512) (run init evs).wire).1 ∧
          (step (run init evs) (Event.forward 1 net)).tasks[1]? =
            some { t with phase := Phase.returned (answer net (q2.take 512)).1
                                     (answer net (q2.take 512)).2 }) ∧
      (∀ (t : Task) (resp : Bytes) (err : Option Error),
        (run init evs).tasks[0]? = some t → t.phase = Phase.returned resp err →
          (∃ net : Net, Event.forward 0 net ∈ evs ∧ answer net (q1.take 512) = (resp, err)) ∧
          (step (run init evs) (Event.reply 0)).sent =
            (run init evs).sent ++ replies (resp, err) a1) ∧
      (∀ (t : Task) (resp : Bytes) (err : Option Error),
        (run init evs).tasks[1]? = some t → t.phase = Phase.returned resp err →
          (∃ net : Net, Event.forward 1 net ∈ evs ∧ answer net (q2.take 512) = (resp, err)) ∧
          (step (run init evs) (Event.reply 1)).sent =
            (run init evs).sent ++ replies (resp, err) a2) := by
  have h := reachable evs
  have h0 : (recvs evs)[0]? = some (q1, a1) := by rw [hrecv]; rfl
  have h1 : (recvs evs)[1]? = some (q2, a2) := by rw [hrecv]; rfl
  have hidx : ∀ (i : Nat) (t : Task), (run init evs).tasks[i]? = some t →
      (i = 0 ∧ t.query = q1.take 512 ∧ t.clientAddr = a1) ∨
      (i = 1 ∧ t.query = q2.take 512 ∧ t.clientAddr = a2) := by
    intro i t hget
    obtain ⟨pa, hpa, hq, ha, _⟩ := keys_n evs _ h.keys i t hget
    rw [hrecv] at hpa
    match i, hpa with
    | 0, hpa =>
      simp only [List.getElem?_cons_zero, Option.some.injEq] at hpa
      subst hpa
      exact Or.inl ⟨rfl, hq, ha⟩
    | 1, hpa =>
      simp only [List.getElem?_cons_succ, List.getElem?_cons_zero, Option.some.injEq] at hpa
      subst hpa
      exact Or.inr ⟨rfl, hq, ha⟩
    | k + 2, hpa => simp at hpa
  have fwd : ∀ (i : Nat) (pa : Bytes × UDPAddr) (t : Task) (net : Net),
      (recvs evs)[i]? = some pa → (run init evs).tasks[i]? = some t → t.phase = Phase.spawned →
      (step (run init evs) (Event.forward i net)).wire =
          (sendToDoH net (pa.1.take 512) (run init evs).wire).1 ∧
        (step (run init evs) (Event.forward i net)).tasks[i]? =
          some { t with phase := Phase.returned (answer net (pa.1.take 512)).1
                                   (answer net (pa.1.take 512)).2 } := by
    intro i pa t net hpa hget hph
    obtain ⟨hq, _, hn⟩ := task_own h i t pa hget hpa
    rw [step_forward_spawned _ h.alive i t net hget hph hn, ← hq]
    refine ⟨rfl, ?_⟩
    show ((run init evs).tasks.set i _)[i]? = _
    rw [List.getElem?_set]
    simp [(List.getElem?_eq_some.mp hget).1]
  have rep : ∀ (i : Nat) (pa : Bytes × UDPAddr) (t : Task) (resp : Bytes) (err : Option Error),
      (recvs evs)[i]? = some pa → (run init evs).tasks[i]? = some t →
      t.phase = Phase.returned resp err →
      (∃ net : Net, Event.forward i net ∈ evs ∧ answer net (pa.1.take 512) = (resp, err)) ∧
        (step (run init evs) (Event.reply i)).sent =
          (run init evs).sent ++ replies (resp, err) pa.2 := by
    intro i pa t resp err hpa hget hph
    obtain ⟨hq, ha, _⟩ := task_own h i t pa hget hpa
    obtain ⟨net, hmem, hans⟩ := h.ret i t resp err hget hph
    rw [step_reply_returned _ h.alive i t resp err hget hph, goFinish_eq, ← hq, ← ha]
    exact ⟨⟨net, hmem, hans⟩, rfl⟩
  refine ⟨?_, ?_, ?_, ?_, ?_, ?_, ?_⟩
  · rw [h.keys, hrecv]
    rfl
  · intro req hreq
    obtain ⟨i, t, hget, he⟩ := h.wire req hreq
    rcases hidx i t hget with ⟨_, hq, _⟩ | ⟨_, hq, _⟩
    · exact Or.inl (by rw [he, hq])
    · exact Or.inr (by rw [he, hq])
  · intro d hd
    obtain ⟨i, t, net, hget, ha, hmem, hans⟩ := h.sent d hd
    rcases hidx i t hget with ⟨hi, hq, hat⟩ | ⟨hi, hq, hat⟩
    · subst hi
      have hda : d.addr = a1 := by rw [← ha, hat]
      refine ⟨Or.inl hda, fun _ => ⟨net, hmem, by rw [← hq]; exact hans⟩, fun hd2 => ?_⟩
      exact absurd (hda.symm.trans hd2) hne
    · subst hi
      have hda : d.addr = a2 := by rw [← ha, hat]
      refine ⟨Or.inr hda, fun hd1 => ?_, fun _ => ⟨net, hmem, by rw [← hq]; exact hans⟩⟩
      exact absurd (hd1.symm.trans hda) hne
  · intro t net hget hph
    exact fwd 0 (q1, a1) t net h0 hget hph
  · intro t net hget hph
    exact fwd 1 (q2, a2) t net h1 hget hph
  · intro t resp err hget hph
    exact rep 0 (q1, a1) t resp err h0 hget hph
  · intro t resp err hget hph
    exact rep 1 (q2, a2) t resp err h1 hget hph

/-- Witness of C9: two clients, the second one served first, with a read error between. -/
theorem no_cross_talk_witness :
    addrA ≠ addrB ∧
      recvs twoQueries = [([1], addrA), ([2, 2, 2, 2], addrB)] ∧
      (run init twoQueries).tasks.map taskKey =
        [(List.take 512 [1], addrA, min [(1 : Byte)].length 512),
         (List.take 512 [2, 2, 2, 2], addrB, min [(2 : Byte), 2, 2, 2].length 512)] :=
  ⟨by decide, rfl, (no_cross_talk twoQueries [1] [2, 2, 2, 2] addrA addrB (by decide) rfl).1⟩

/-! ## The `dns` parameter of the requests of `sendToDoH` -/

theorem task_query_le {evs : List Event} {s : Sys} (h : Inv evs s) (t : Task)
    (ht : t ∈ s.tasks) : t.query.length ≤ 512 := by
  obtain ⟨i, hi, hget⟩ := List.getElem_of_mem ht
  obtain ⟨pa, _, hq, _, _⟩ :=
    keys_n evs s h.keys i t (by rw [List.getElem?_eq_getElem hi, hget])
  rw [hq, List.length_take]
  omega

/-- C2: for every byte sequence `q` (of length at most 512 or longer), the URL that
`sendToDoH` builds is the endpoint, then `?dns=`, then the `dns` parameter; no character
of that parameter is `=` and every one is in `[A-Za-z0-9_-]`; and every request that a
call of `sendToDoH` adds to the log has that URL, so the same holds of its parameter. -/
theorem dns_param_alphabet (net : Net) (q : Bytes) (wire : List Request) :
    dohURL q = dohEndpoint ++ "?dns=" ++ dnsParamOf (dohURL q) ∧
      (∀ c ∈ (dnsParamOf (dohURL q)).toList, c ≠ '=' ∧ urlSafe c = true) ∧
      (∀ req ∈ (sendToDoH net q wire).1, req ∈ wire ∨
        (req.url = dohURL q ∧
          ∀ c ∈ (dnsParamOf req.url).toList, c ≠ '=' ∧ urlSafe c = true)) := by
  have hsafe : ∀ c ∈ (dnsParamOf (dohURL q)).toList, c ≠ '=' ∧ urlSafe c = true := by
    rw [dnsParamOf_dohURL]
    exact encode_alphabet q
  refine ⟨dohURL_split q, hsafe, ?_⟩
  intro req hreq
  rcases wire_after net q wire req hreq with hold | hnew
  · exact Or.inl hold
  · have hurl : req.url = dohURL q := by rw [hnew]; rfl
    refine Or.inr ⟨hurl, ?_⟩
    rw [hurl]
    exact hsafe

/-- Witness of C2: the two bytes `fb ff` give the parameter `-_8`, in the URL and in the
request that goes to an upstream that answers. -/
theorem dns_param_alphabet_witness :
    '-' ∈ (dnsParamOf (dohURL [251, 255])).toList ∧
      ('-' ≠ '=' ∧ urlSafe '-' = true) ∧
      dohRequest [251, 255] ∈ (sendToDoH (fixedNet 200 wholeBody) [251, 255] []).1 ∧
      (dohRequest [251, 255] ∈ ([] : List Request) ∨
        ((dohRequest [251, 255]).url = dohURL [251, 255] ∧
          ∀ c ∈ (dnsParamOf (dohRequest [251, 255]).url).toList,
            c ≠ '=' ∧ urlSafe c = true)) :=
  ⟨by decide,
    (dns_param_alphabet (fixedNet 200 wholeBody) [251, 255] []).2.1 '-' (by decide),
    by decide,
    (dns_param_alphabet (fixedNet 200 wholeBody) [251, 255] []).2.2 (dohRequest [251, 255])
      (by decide)⟩

/-- C10: for a query `q` of `n` bytes the `dns` parameter of the URL `sendToDoH` builds has
`EncodedLen n` characters, which is `4 * (n / 3)` plus 0, 2 or 3 for `n % 3` equal to 0, 1
or 2, which is the ceiling of `4 * n / 3`; for `n ≤ 512` this is at most 683. Every request
that a call of `sendToDoH` adds to the log carries a parameter of that length, and the
parameter built for the query of any goroutine that `main` starts, under any schedule,
is at most 683 characters long. -/
theorem dns_param_length (net : Net) (q : Bytes) (wire : List Request) (evs : List Event) :
    dohURL q = dohEndpoint ++ "?dns=" ++ dnsParamOf (dohURL q) ∧
      (dnsParamOf (dohURL q)).length = EncodedLen q.length ∧
      (dnsParamOf (dohURL q)).length =
        4 * (q.length / 3) + (if q.length % 3 = 0 then 0 else if q.length % 3 = 1 then 2 else 3) ∧
      (dnsParamOf (dohURL q)).length = (4 * q.length + 2) / 3 ∧
      (q.length ≤ 512 → (dnsParamOf (dohURL q)).length ≤ 683) ∧
      (∀ req ∈ (sendToDoH net q wire).1, req ∈ wire ∨
        (req.url = dohURL q ∧ (dnsParamOf req.url).length = (4 * q.length + 2) / 3)) ∧
      (∀ t ∈ (run init evs).tasks, (dnsParamOf (dohURL t.query)).length ≤ 683) := by
  have hlen : ∀ b : Bytes, (dnsParamOf (dohURL b)).length = (4 * b.length + 2) / 3 := by
    intro b
    rw [dnsParamOf_dohURL, encode_length]
    simp only [EncodedLen]
    omega
  have h : (dnsParamOf (dohURL q)).length = EncodedLen q.length := by
    rw [dnsParamOf_dohURL, encode_length]
  refine ⟨dohURL_split q, h, ?_, hlen q, ?_, ?_, ?_⟩
  · rw [h]
    simp only [EncodedLen]
    split_ifs <;> omega
  · intro hle
    rw [hlen q]
    omega
  · intro req hreq
    rcases wire_after net q wire req hreq with hold | hnew
    · exact Or.inl hold
    · have hurl : req.url = dohURL q := by rw [hnew]; rfl
      exact Or.inr ⟨hurl, by rw [hurl]; exact hlen q⟩
  · intro t ht
    have hle := task_query_le (reachable evs) t ht
    rw [hlen t.query]
    omega

/-- Witness of C10: the 3-byte query of the first datagram gives a 4-character parameter,
in the URL, in the request issued, and for the goroutine `main` starts. -/
theorem dns_param_length_witness :
    ([1, 2, 3] : Bytes).length ≤ 512 ∧
      (dnsParamOf (dohURL [1, 2, 3])).length ≤ 683 ∧
      dohRequest [1, 2, 3] ∈ (sendToDoH (fixedNet 200 wholeBody) [1, 2, 3] []).1 ∧
      (dohRequest [1, 2, 3] ∈ ([] : List Request) ∨
        ((dohRequest [1, 2, 3]).url = dohURL [1, 2, 3] ∧
          (dnsParamOf (dohRequest [1, 2, 3]).url).length =
            (4 * ([1, 2, 3] : Bytes).length + 2) / 3)) ∧
      taskFor [1, 2, 3] addrA ∈ (run init oneQuery).tasks ∧
      (dnsParamOf (dohURL (taskFor [1, 2, 3] addrA).query)).length ≤ 683 :=
  ⟨by decide,
    (dns_param_length (fixedNet 200 wholeBody) [1, 2, 3] [] oneQuery).2.2.2.2.1 (by decide),
    by decide,
    (dns_param_length (fixedNet 200 wholeBody) [1, 2, 3] [] oneQuery).2.2.2.2.2.1
      (dohRequest [1, 2, 3]) (by decide),
    by rw [oneQuery_tasks]; exact List.mem_singleton_self _,
    (dns_param_length (fixedNet 200 wholeBody) [1, 2, 3] [] oneQuery).2.2.2.2.2.2
      (taskFor [1, 2, 3] addrA) (by rw [oneQuery_tasks]; exact List.mem_singleton_self _)⟩

end DoH
